import Mathlib

/-!
Verification development for the Landslide REST client
(`Landslide_rest_client.py`): a Postman-collection loader, request model,
and HTTP dispatch layer.  Python data is embedded shallowly: Python `dict`s
become insertion-ordered association lists with last-write-wins updates,
`None` becomes `Option`, truthiness tests are made explicit, and the parts
of `urllib.parse` and `json` that the code calls are modelled as executable
Lean functions following the CPython semantics on the inputs this client
can produce.
-/

set_option maxRecDepth 4096

/-- Python `dict` model: insertion-ordered association list with unique keys.
`dictInsert` implements `d[k] = v`: an existing key keeps its position and
gets the new value, a new key is appended at the end. -/
def dictInsert {K V : Type} [DecidableEq K] : List (K × V) → K → V → List (K × V)
  | [], k, v => [(k, v)]
  | (k0, v0) :: rest, k, v =>
      if k0 = k then (k, v) :: rest else (k0, v0) :: dictInsert rest k v

/-- Python `d.get(k)` / `d[k]`: first (and, for dicts, only) binding of `k`. -/
def dictGet {K V : Type} [DecidableEq K] : List (K × V) → K → Option V
  | [], _ => none
  | (k0, v0) :: rest, k => if k = k0 then some v0 else dictGet rest k

/-- Rightmost binding of `k` in an arbitrary association list; on a genuine
dict (unique keys) it agrees with `dictGet`.  Used to state what a batch
`update` does when the argument list could repeat keys. -/
def dictGetLast {K V : Type} [DecidableEq K] : List (K × V) → K → Option V
  | [], _ => none
  | (k0, v0) :: rest, k =>
      (dictGetLast rest k).orElse (fun _ => if k = k0 then some v0 else none)

/-- Python `d.update(e)`: fold `dictInsert` over the entries of `e`. -/
def dictUpdate {K V : Type} [DecidableEq K] (d e : List (K × V)) : List (K × V) :=
  e.foldl (fun acc p => dictInsert acc p.1 p.2) d

/-- Keys of a dict, in order. -/
def dictKeys {K V : Type} (d : List (K × V)) : List K := d.map Prod.fst

/-- Header mappings are string-keyed dicts. -/
abbrev Headers := List (String × String)

/-- Python `str.join` with `/` over a list of character lists. -/
def joinSlash : List (List Char) → List Char
  | [] => []
  | s :: rest =>
      match rest with
      | [] => s
      | _ :: _ => s ++ '/' :: joinSlash rest

/-- Python `str.join` with `.`. -/
def joinDot : List (List Char) → List Char
  | [] => []
  | s :: rest =>
      match rest with
      | [] => s
      | _ :: _ => s ++ '.' :: joinDot rest

/-- `'/' + s1 + '/' + s2 + ...`: each segment preceded by a slash. -/
def slashPath (segs : List (List Char)) : List Char :=
  segs.foldr (fun s acc => '/' :: (s ++ acc)) []

/-- Python `str.split('/')` on character lists. -/
def splitSlash : List Char → List (List Char)
  | [] => [[]]
  | c :: t =>
      if c = '/' then [] :: splitSlash t
      else
        match splitSlash t with
        | s :: ss => (c :: s) :: ss
        | [] => [[c]]

/-- Fuel-indexed body of `pyReplace`; each step consumes at least one
character, so `l.length` fuel is always enough. -/
def pyReplaceFuel : Nat → List Char → List Char → List Char → List Char
  | 0, l, _, _ => l
  | fuel + 1, l, pat, rep =>
      match l with
      | [] => []
      | c :: t =>
          if pat ≠ [] ∧ (c :: t).take pat.length = pat then
            rep ++ pyReplaceFuel fuel ((c :: t).drop pat.length) pat rep
          else
            c :: pyReplaceFuel fuel t pat rep

/-- Python `s.replace(pat, rep)` for a non-empty `pat`: non-overlapping,
left-to-right. -/
def pyReplace (l pat rep : List Char) : List Char :=
  pyReplaceFuel l.length l pat rep

/-- Python `s.split(c, 1)` combined with the containment test the URL
splitter performs: returns (part before the first `c`, part after it); when
`c` does not occur the second component is empty and the first is the whole
input, matching `url, frag = url.split('#', 1) if '#' in url else (url, '')`. -/
def splitAtFirst (c : Char) : List Char → List Char × List Char
  | [] => ([], [])
  | d :: t =>
      if d = c then ([], t)
      else
        let p := splitAtFirst c t
        (d :: p.1, p.2)

/-- Boolean list-of-chars `startswith`. -/
def startsWithL : List Char → List Char → Bool
  | _, [] => true
  | [], _ :: _ => false
  | c :: t, p :: ps => c = p && startsWithL t ps

/-- Python `str.lstrip('/')`. -/
def pyLstripSlash (l : List Char) : List Char := l.dropWhile (· = '/')

/-- Python `str.rstrip('/')`. -/
def pyRstripSlash (l : List Char) : List Char :=
  (l.reverse.dropWhile (· = '/')).reverse

/-- Python `str.upper()` (ASCII, which is all this client sends). -/
def pyUpper (s : String) : String := String.mk (s.data.map Char.toUpper)

/-- Python `str.isdigit()` restricted to ASCII digits (the host parts this
code inspects): non-empty and all digits. -/
def pyStrIsDigit (s : String) : Bool := !s.data.isEmpty && s.data.all Char.isDigit

/-- Characters CPython allows inside a URL scheme. -/
def isSchemeChar (c : Char) : Bool :=
  c.isAlpha || c.isDigit || c = '+' || c = '-' || c = '.'

/-- CPython `urlsplit` scheme detection: if the input is
`<scheme-chars>:<rest>` with a non-empty, letter-initial run of scheme
characters before the first colon, return the lowercased scheme and the
rest; else `none`. -/
def schemeSplit (url : List Char) : Option (List Char × List Char) :=
  match url.dropWhile isSchemeChar with
  | ':' :: r =>
      match url.takeWhile isSchemeChar with
      | [] => none
      | c :: cs => if c.isAlpha then some ((c :: cs).map Char.toLower, r) else none
  | _ => none

/-- The five components returned by `urllib.parse.urlsplit`. -/
structure UrlSplitResult where
  scheme : List Char
  netloc : List Char
  path : List Char
  query : List Char
  fragment : List Char
deriving DecidableEq

/-- A netloc extends up to the first `/`, `?` or `#`. -/
def isNetlocEnd (c : Char) : Bool := c = '/' || c = '?' || c = '#'

/-- Python `str.split(c)` (every occurrence). -/
def splitOnChar (c : Char) : List Char → List (List Char)
  | [] => [[]]
  | d :: t =>
      if d = c then [] :: splitOnChar c t
      else
        match splitOnChar c t with
        | s :: ss => (d :: s) :: ss
        | [] => [[d]]

/-- ASCII hex digit, `ipaddress._HEX_DIGITS`. -/
def isHexDigitCh (c : Char) : Bool :=
  c.isDigit || ('a' ≤ c && c ≤ 'f') || ('A' ≤ c && c ≤ 'F')

/-- `ipaddress._BaseV4._parse_octet` as a validator: non-empty ASCII
decimal, at most 3 digits, no leading zero except the string `0`, and
value at most 255. -/
def validOctet (s : List Char) : Bool :=
  !s.isEmpty && s.all Char.isDigit && s.length ≤ 3 &&
  (s = ['0'] || s.head? ≠ some '0') &&
  s.foldl (fun acc c => acc * 10 + (c.toNat - '0'.toNat)) 0 ≤ 255

/-- `ipaddress._BaseV4._ip_int_from_string` as a validator: exactly four
valid dotted octets. -/
def validIPv4 (s : List Char) : Bool :=
  let octets := splitOnChar '.' s
  octets.length = 4 && octets.all validOctet

/-- `ipaddress._BaseV6._parse_hextet` as a validator (an empty hextet
fails `int(s, 16)` in the parse loop, so it is invalid here too). -/
def validHextet (s : List Char) : Bool :=
  !s.isEmpty && s.all isHexDigitCh && s.length ≤ 4

/-- `ipaddress._BaseV6._ip_int_from_string` as a validator (the scope id
already removed): at least three `:`-parts, an optional embedded IPv4
tail, at most nine parts, at most one `::` gap covering at least one
group, and every parsed group a valid hextet. -/
def validIPv6Core (s : List Char) : Bool :=
  let parts := splitOnChar ':' s
  if s.isEmpty || parts.length < 3 then false
  else
    let lastPart := parts.getLast?.getD []
    let tailIPv4 := lastPart.contains '.'
    if tailIPv4 && !validIPv4 lastPart then false
    else
      let parts := if tailIPv4 then parts.dropLast ++ [['0'], ['0']] else parts
      if 9 < parts.length then false
      else
        let mids := (parts.drop 1).dropLast
        let empties := (mids.filter (fun p => p.isEmpty)).length
        if 2 ≤ empties then false
        else if empties = 1 then
          let skipIndex := 1 + mids.findIdx (fun p => p.isEmpty)
          if parts.head? = some [] && skipIndex ≠ 1 then false
          else if parts.getLast? = some [] && parts.length - skipIndex - 1 ≠ 1 then false
          else
            let partsHi := if parts.head? = some [] then skipIndex - 1 else skipIndex
            let partsLo0 := parts.length - skipIndex - 1
            let partsLo := if parts.getLast? = some [] then partsLo0 - 1 else partsLo0
            if 8 ≤ partsHi + partsLo then false
            else
              (parts.take partsHi).all validHextet &&
              (parts.drop (parts.length - partsLo)).all validHextet
        else
          if parts.length ≠ 8 then false
          else if parts.head? = some [] || parts.getLast? = some [] then false
          else parts.all validHextet

/-- `IPv6Address` textual validation: no `/`, an optional non-empty,
`%`-free scope id after the first `%`, and a valid core address. -/
def validIPv6 (s : List Char) : Bool :=
  if s.contains '/' then false
  else if s.contains '%' then
    let p := splitAtFirst '%' s
    !p.2.isEmpty && !p.2.contains '%' && validIPv6Core p.1
  else validIPv6Core s

/-- `urllib.parse._check_bracketed_host` as a validator: an IPvFuture
literal `v<hex>+.<rest>` (the regex dot matches anything but a newline),
or a textual IPv6 address; a valid IPv4 address or anything else raises
in CPython, i.e. is invalid here. -/
def checkBracketedHost (h : List Char) : Bool :=
  match h with
  | 'v' :: rest =>
      let hex := rest.takeWhile isHexDigitCh
      let rest2 := rest.dropWhile isHexDigitCh
      !hex.isEmpty &&
        (match rest2 with
         | '.' :: tail => !tail.isEmpty && !tail.contains '\n'
         | _ => false)
  | _ => if validIPv4 h then false else validIPv6 h

/-- Model of `urllib.parse.urlsplit(url, scheme=default)` (with
`allow_fragments=True`): scheme detection, netloc extraction with the
IPv6-bracket `ValueError`s, then fragment and query splitting.  Two
pre-passes are not modelled and are excluded by the theorems' character
hypotheses: CPython first deletes `\t`/`\r`/`\n` and strips leading
controls/spaces, and the NFKC netloc-spoofing check (`_checknetloc`) is a
no-op for the ASCII netlocs quantified over below. -/
def pyUrlsplit (url : List Char) (default : List Char) : Except String UrlSplitResult :=
  let sr := match schemeSplit url with
    | some (s, r) => (s, r)
    | none => (default, url)
  let scheme := sr.1
  let rest := sr.2
  let nl := if rest.take 2 = ['/', '/'] then
      ((rest.drop 2).takeWhile (fun c => !isNetlocEnd c),
       (rest.drop 2).dropWhile (fun c => !isNetlocEnd c))
    else ([], rest)
  let netloc := nl.1
  if ('[' ∈ netloc ∧ ']' ∉ netloc) ∨ (']' ∈ netloc ∧ '[' ∉ netloc) then
    .error "Invalid IPv6 URL"
  else if '[' ∈ netloc ∧ ']' ∈ netloc ∧
      checkBracketedHost (splitAtFirst ']' (splitAtFirst '[' netloc).2).1 = false then
    .error "invalid bracketed host"
  else
    let fr := splitAtFirst '#' nl.2
    let pq := splitAtFirst '?' fr.1
    .ok ⟨scheme, netloc, pq.1, pq.2, fr.2⟩

/-- `urllib.parse.uses_relative`. -/
def usesRelative : List (List Char) :=
  ["", "ftp", "http", "gopher", "nntp", "imap", "wais", "file", "https",
   "shttp", "mms", "prospero", "rtsp", "rtspu", "sftp", "svn", "svn+ssh",
   "ws", "wss"].map String.data

/-- `urllib.parse.uses_netloc`. -/
def usesNetloc : List (List Char) :=
  ["", "ftp", "http", "gopher", "nntp", "telnet", "imap", "wais", "file",
   "mms", "https", "shttp", "snews", "prospero", "rtsp", "rtspu", "rsync",
   "svn", "svn+ssh", "sftp", "nfs", "git", "git+ssh", "ws",
   "wss", "itms-services"].map String.data

/-- Model of `urllib.parse.urlunsplit` (Python 3.11: the `//` is emitted
when there is a netloc, and also when the scheme uses a netloc and the
path does not already begin with `//`). -/
def pyUrlunsplit (p : UrlSplitResult) : List Char :=
  let url := p.path
  let url :=
    if p.netloc ≠ [] ∨ (p.scheme ≠ [] ∧ p.scheme ∈ usesNetloc ∧ url.take 2 ≠ ['/', '/']) then
      let url := if url ≠ [] ∧ url.head? ≠ some '/' then '/' :: url else url
      '/' :: '/' :: (p.netloc ++ url)
    else url
  let url := if p.scheme ≠ [] then p.scheme ++ ':' :: url else url
  let url := if p.query ≠ [] then url ++ '?' :: p.query else url
  if p.fragment ≠ [] then url ++ '#' :: p.fragment else url

/-- `segments[1:-1] = filter(None, segments[1:-1])`: drop empty segments
strictly between the first and the last. -/
def filterMiddleAux : List (List Char) → List (List Char)
  | [] => []
  | [x] => [x]
  | x :: y :: rest =>
      if x = [] then filterMiddleAux (y :: rest)
      else x :: filterMiddleAux (y :: rest)

/-- Apply `filterMiddleAux` to everything after the first segment. -/
def filterMiddle : List (List Char) → List (List Char)
  | [] => []
  | x :: rest => x :: filterMiddleAux rest

/-- The `.`/`..` resolution loop of CPython `urljoin`: a stack where `..`
pops (ignoring underflow), `.` is skipped, everything else is pushed. -/
def resolveSegs (segs : List (List Char)) : List (List Char) :=
  segs.foldl
    (fun acc s =>
      if s = ['.', '.'] then acc.dropLast
      else if s = ['.'] then acc
      else acc ++ [s]) []

/-- `urllib.parse.uses_params`. -/
def usesParams : List (List Char) :=
  ["", "ftp", "hdl", "prospero", "http", "imap", "https", "shttp", "rtsp",
   "rtsps", "rtspu", "sip", "sips", "mms", "sftp", "tel"].map String.data

/-- `urllib.parse._splitparams`: split `;params` off the last path
segment.  `urlparse` only calls this when `;` occurs in the path; on that
domain this model agrees with CPython (outside it CPython's `find` index
arithmetic differs, but that code is unreachable). -/
def pySplitparams (url : List Char) : List Char × List Char :=
  if '/' ∈ url then
    let rv := splitAtFirst '/' url.reverse
    let suf := rv.1.reverse
    let pre := rv.2.reverse
    if ';' ∈ suf then
      let p := splitAtFirst ';' suf
      (pre ++ '/' :: p.1, p.2)
    else (url, [])
  else
    splitAtFirst ';' url

/-- The six components returned by `urllib.parse.urlparse`. -/
structure UrlParseResult where
  scheme : List Char
  netloc : List Char
  path : List Char
  params : List Char
  query : List Char
  fragment : List Char
deriving DecidableEq

/-- Model of `urllib.parse.urlparse`: `urlsplit`, then `;`-params split
off the path for schemes in `uses_params`. -/
def pyUrlparse (url : List Char) (default : List Char) : Except String UrlParseResult :=
  match pyUrlsplit url default with
  | .error e => .error e
  | .ok r =>
      if r.scheme ∈ usesParams ∧ ';' ∈ r.path then
        let pp := pySplitparams r.path
        .ok ⟨r.scheme, r.netloc, pp.1, pp.2, r.query, r.fragment⟩
      else .ok ⟨r.scheme, r.netloc, r.path, [], r.query, r.fragment⟩

/-- Model of `urllib.parse.urlunparse`: re-attach `;params` to the path
and `urlunsplit`. -/
def pyUrlunparse (p : UrlParseResult) : List Char :=
  pyUrlunsplit ⟨p.scheme, p.netloc,
    (if p.params ≠ [] then p.path ++ ';' :: p.params else p.path),
    p.query, p.fragment⟩

/-- Model of `urllib.parse.urljoin(base, url)` following the CPython
implementation: parse both sides with `urlparse` (propagating its
`ValueError`s), reuse scheme/netloc, merge a relative path against the
base's directory with dot-segment resolution, and reassemble with
`urlunparse`. -/
def pyUrljoin (base url : List Char) : Except String (List Char) :=
  if base = [] then .ok url
  else if url = [] then .ok base
  else
    match pyUrlparse base [] with
    | .error e => .error e
    | .ok b =>
        match pyUrlparse url b.scheme with
        | .error e => .error e
        | .ok u =>
            if u.scheme ≠ b.scheme ∨ u.scheme ∉ usesRelative then .ok url
            else if u.scheme ∈ usesNetloc ∧ u.netloc ≠ [] then
              .ok (pyUrlunparse ⟨u.scheme, u.netloc, u.path, u.params, u.query, u.fragment⟩)
            else
              let netloc := if u.scheme ∈ usesNetloc then b.netloc else u.netloc
              if u.path = [] ∧ u.params = [] then
                .ok (pyUrlunparse ⟨u.scheme, netloc, b.path, b.params,
                  (if u.query = [] then b.query else u.query), u.fragment⟩)
              else
                let baseParts := splitSlash b.path
                let baseParts :=
                  if baseParts.getLast? ≠ some [] then baseParts.dropLast else baseParts
                let segments :=
                  if u.path.head? = some '/' then splitSlash u.path
                  else filterMiddle (baseParts ++ splitSlash u.path)
                let resolved := resolveSegs segments
                let resolved :=
                  if segments.getLast? = some ['.'] ∨ segments.getLast? = some ['.', '.']
                  then resolved ++ [[]] else resolved
                let p := joinSlash resolved
                .ok (pyUrlunparse ⟨u.scheme, netloc, (if p = [] then ['/'] else p),
                  u.params, u.query, u.fragment⟩)

/-- Values produced by `json.loads`, over the JSON subset this client's
collections use (null/bool/integer/string/array/object).  Floats are not
modelled; nothing in the claims depends on them. -/
inductive PyJson where
  | null
  | bool (b : Bool)
  | num (n : Int)
  | str (s : String)
  | arr (xs : List PyJson)
  | obj (kvs : List (String × PyJson))

/-- JSON whitespace skip. -/
def jsonSkipWs (l : List Char) : List Char :=
  l.dropWhile (fun c => c = ' ' || c = '\t' || c = '\n' || c = '\r')

/-- Parse the body of a JSON string literal (opening quote consumed),
handling the single-character escapes `json` accepts. -/
def parseJsonStr : List Char → Option (List Char × List Char)
  | [] => none
  | '"' :: rest => some ([], rest)
  | '\\' :: e :: rest =>
      let cont := fun (c : Char) =>
        (parseJsonStr rest).map (fun p => (c :: p.1, p.2))
      if e = '"' then cont '"'
      else if e = '\\' then cont '\\'
      else if e = '/' then cont '/'
      else if e = 'n' then cont '\n'
      else if e = 't' then cont '\t'
      else if e = 'r' then cont '\r'
      else none
  | c :: rest => (parseJsonStr rest).map (fun p => (c :: p.1, p.2))

/-- Parse an optionally-signed integer literal, rejecting a following `.`,
`e` or `E` (floats are outside the modelled subset). -/
def parseJsonInt (l : List Char) : Option (Int × List Char) :=
  let core := fun (m : List Char) =>
    let ds := m.takeWhile Char.isDigit
    let rest := m.dropWhile Char.isDigit
    if ds = [] then none
    else match rest with
      | '.' :: _ => none
      | 'e' :: _ => none
      | 'E' :: _ => none
      | _ =>
          some (ds.foldl (fun acc c => acc * 10 + (c.toNat - '0'.toNat)) 0, rest)
  match l with
  | '-' :: m => (core m).map (fun p => (-(p.1 : Int), p.2))
  | _ => (core l).map (fun p => ((p.1 : Int), p.2))

mutual

/-- Fuel-indexed JSON value parser. -/
def parseJsonVal : Nat → List Char → Option (PyJson × List Char)
  | 0, _ => none
  | fuel + 1, l =>
      match jsonSkipWs l with
      | 'n' :: 'u' :: 'l' :: 'l' :: rest => some (.null, rest)
      | 't' :: 'r' :: 'u' :: 'e' :: rest => some (.bool true, rest)
      | 'f' :: 'a' :: 'l' :: 's' :: 'e' :: rest => some (.bool false, rest)
      | '"' :: rest => (parseJsonStr rest).map (fun p => (.str (String.mk p.1), p.2))
      | '[' :: rest =>
          (match jsonSkipWs rest with
           | ']' :: r => some (.arr [], r)
           | _ => (parseJsonElems fuel rest).map (fun p => (.arr p.1, p.2)))
      | '{' :: rest =>
          (match jsonSkipWs rest with
           | '}' :: r => some (.obj [], r)
           | _ => (parseJsonMembers fuel rest).map (fun p => (.obj p.1, p.2)))
      | m => (parseJsonInt m).map (fun p => (.num p.1, p.2))

/-- One-or-more comma-separated array elements, then `]`. -/
def parseJsonElems : Nat → List Char → Option (List PyJson × List Char)
  | 0, _ => none
  | fuel + 1, l =>
      match parseJsonVal fuel l with
      | none => none
      | some (v, rest) =>
          match jsonSkipWs rest with
          | ',' :: r => (parseJsonElems fuel r).map (fun p => (v :: p.1, p.2))
          | ']' :: r => some ([v], r)
          | _ => none

/-- One-or-more comma-separated object members, then `}`. -/
def parseJsonMembers : Nat → List Char → Option (List (String × PyJson) × List Char)
  | 0, _ => none
  | fuel + 1, l =>
      match jsonSkipWs l with
      | '"' :: rest =>
          match parseJsonStr rest with
          | none => none
          | some (k, r1) =>
              match jsonSkipWs r1 with
              | ':' :: r2 =>
                  match parseJsonVal fuel r2 with
                  | none => none
                  | some (v, r3) =>
                      match jsonSkipWs r3 with
                      | ',' :: r4 =>
                          (parseJsonMembers fuel r4).map
                            (fun p => ((String.mk k, v) :: p.1, p.2))
                      | '}' :: r4 => some ([(String.mk k, v)], r4)
                      | _ => none
              | _ => none
      | _ => none

end

/-- Model of `json.loads`: parse one value, require only whitespace after
it; `none` models the raised `JSONDecodeError`. -/
def jsonLoads (s : String) : Option PyJson :=
  match parseJsonVal (s.data.length + 1) s.data with
  | some (v, rest) => if jsonSkipWs rest = [] then some v else none
  | none => none

/-- `AuthSpec` dataclass. -/
structure AuthSpec where
  type : Option String := none
  username : Option String := none
  password : Option String := none
deriving DecidableEq

/-- One entry of a Postman `formdata`/`urlencoded` part list (a JSON dict
read with `.get`). -/
structure FormPart where
  key : Option String := none
  value : Option String := none
  type : Option String := none
  src : Option String := none
deriving DecidableEq

/-- `RequestBody` dataclass. -/
structure RequestBody where
  mode : Option String := none
  raw : Option String := none
  formdata : Option (List FormPart) := none
  urlencoded : Option (List FormPart) := none
deriving DecidableEq

/-- `URLSpec` dataclass; `query` is carried but never read by the code. -/
structure URLSpec where
  raw : Option String := none
  protocol : Option String := none
  host : Option (List String) := none
  port : Option String := none
  path : Option (List String) := none
  query : Option (List (String × String)) := none
deriving DecidableEq

/-- The fallback branch of `URLSpec.to_absolute`: compose scheme, netloc
and path and hand them to `urlunparse` (with empty params/query/fragment,
`urlunparse` coincides with `urlunsplit`). -/
def URLSpec.compose (u : URLSpec) : List Char :=
  let host_str : List Char :=
    match u.host with
    | none => []
    | some [] => []
    | some hs =>
        let parts := hs.map String.data
        let joined :=
          if u.protocol = some "ws" ∨ u.protocol = some "wss" then joinDot parts
          else pyReplace (joinDot parts) ['.', '.'] ['.']
        if hs.all pyStrIsDigit then joinDot parts else joined
  let netloc :=
    match u.port with
    | some p => if p ≠ "" then host_str ++ ':' :: p.data else host_str
    | none => host_str
  let path_str := joinSlash ((u.path.getD []).map String.data)
  let scheme : List Char :=
    match u.protocol with
    | some pr => if pr ≠ "" then pr.data else "http".data
    | none => "http".data
  pyUrlunparse ⟨scheme, netloc, pyReplace ('/' :: path_str) ['/', '/'] ['/'], [], [], []⟩

/-- `URLSpec.to_absolute`: `if self.raw: return self.raw` (Python
truthiness: `None` and `""` both fall through to composition). -/
def URLSpec.to_absolute (u : URLSpec) : String :=
  match u.raw with
  | some r => if r ≠ "" then r else String.mk u.compose
  | none => String.mk u.compose

/-- `RequestItem` dataclass. -/
structure RequestItem where
  name : String
  method : String
  url : URLSpec
  headers : Headers := []
  body : Option RequestBody := none
  auth : Option AuthSpec := none
deriving DecidableEq

/-- One entry of a Postman `header` array. -/
structure HeaderEntry where
  key : Option String := none
  value : Option String := none
deriving DecidableEq

/-- One entry of the list under `auth["basic"]`. -/
structure AuthKV where
  key : Option String := none
  value : Option String := none
deriving DecidableEq

/-- The `auth` object of a Postman request. -/
structure PAuth where
  type : Option String := none
  basic : Option (List AuthKV) := none
deriving DecidableEq

/-- The `request` object of a Postman leaf item, with exactly the keys
`from_postman_item` reads (each `Option` models key presence, and the
sub-dicts are read field-by-field just as the code's `.get` calls do). -/
structure PRequest where
  url : Option URLSpec := none
  header : Option (List HeaderEntry) := none
  method : Option String := none
  body : Option RequestBody := none
  auth : Option PAuth := none
deriving DecidableEq

/-- Shape of the `item` key of a collection entry: absent, present but not
a list, or a list (`"item" in it and isinstance(it["item"], list)`). -/
inductive ChildTag where
  | missing
  | notList
  | isList
deriving DecidableEq

/-- One entry of a Postman collection's (possibly nested) `item` tree.
`children` is meaningful only when `childTag = isList`. -/
inductive PostmanItem where
  | mk (name : Option String) (childTag : ChildTag) (children : List PostmanItem)
      (request : Option PRequest)

/-- `RequestItem.from_postman_item`: `None` unless the entry has a
`request` key; headers keep only entries whose key is truthy and whose
value is not `None`; `basic` auth credentials are read from the key/value
list under `auth["basic"]` (where a missing entry and a `None` value are
indistinguishable, exactly as `kv.get(...)` makes them). -/
def RequestItem.from_postman_item : PostmanItem → Option RequestItem
  | .mk name _ _ request =>
    match request with
    | none => none
    | some req =>
        let url := req.url.getD {}
        let headers : Headers :=
          (req.header.getD []).foldl
            (fun acc h =>
              match h.key, h.value with
              | some k, some v => if k ≠ "" then dictInsert acc k v else acc
              | _, _ => acc) []
        let auth_spec : Option AuthSpec :=
          match req.auth with
          | none => none
          | some a =>
              if a.type = some "basic" then
                let kv : List (Option String × Option String) :=
                  (a.basic.getD []).foldl (fun acc e => dictInsert acc e.key e.value) []
                some ⟨a.type, (dictGet kv (some "username")).join,
                      (dictGet kv (some "password")).join⟩
              else some ⟨a.type, none, none⟩
        some
          { name := name.getD "Unnamed"
            method := pyUpper (req.method.getD "GET")
            url := url
            headers := headers
            body := req.body
            auth := auth_spec }

mutual

/-- Per-entry body of the `flatten_items` loop in `PostmanCollection.load`:
an entry whose `item` key holds a list is a folder and is recursed into;
any other entry goes through `from_postman_item` and is kept only when
that returns a request. -/
def flatten_one : PostmanItem → List RequestItem
  | .mk name tag children request =>
      if tag = ChildTag.isList then flatten_items children
      else (RequestItem.from_postman_item (.mk name tag children request)).toList

/-- `flatten_items` inside `PostmanCollection.load`. -/
def flatten_items : List PostmanItem → List RequestItem
  | [] => []
  | it :: rest => flatten_one it ++ flatten_items rest

end

/-- `PostmanCollection`: the flat item list plus the
`{it.name: it for it in items}` lookup dict (last name wins). -/
structure PostmanCollection where
  items : List RequestItem
  by_name : List (String × RequestItem)

/-- `PostmanCollection.__init__`. -/
def PostmanCollection.ofItems (items : List RequestItem) : PostmanCollection :=
  ⟨items, items.foldl (fun d it => dictInsert d it.name it) []⟩

/-- `PostmanCollection.load`, from the already-decoded `item` array of the
collection document (file reading and `json.load` happen before the logic
the claims are about). -/
def PostmanCollection.load (rootItems : List PostmanItem) : PostmanCollection :=
  PostmanCollection.ofItems (flatten_items rootItems)

/-- `ApiError(message, status_code, details)`. -/
structure ApiError where
  message : String
  status_code : Option Int := none
  details : Option String := none
deriving DecidableEq

/-- A `requests.Response` as far as this client inspects it. -/
structure Response where
  status : Nat
deriving DecidableEq

/-- What one transport attempt yields: an HTTP response, or a
transport-level connection failure. -/
inductive Outcome where
  | resp (r : Response)
  | connError (msg : String)

/-- The keyword payload `_prepare_body` hands to `requests`. -/
inductive DataKwargs where
  | empty
  | json (j : PyJson)
  | data (s : String)
  | form (fields : List (String × Option String)) (files : List (String × String))
  | urlenc (fields : List (String × Option String))

/-- Everything `session.request` receives for one attempt.  `url` records
the outcome of URL resolution: in the real code a `ValueError` raised by
`_prepare_url` propagates out of `send` before any transport attempt,
while here the transport abstraction receives the outcome; the claims
about `send` only exercise well-formed URLs. -/
structure WireRequest where
  method : String
  url : Except String String
  headers : Headers
  auth : Option (Option String × Option String)
  payload : DataKwargs

/-- `ApiClient` state after `__init__` (the `requests.Session` object is
represented by its headers and auth; `session.headers` starts from the
given default headers). -/
structure ApiClient where
  base_url : Option String := none
  default_timeout : Int := 30
  max_retries : Nat := 3
  sessionHeaders : Headers := []
  sessionAuth : Option (Option String × Option String) := none

/-- `ApiClient.__init__`: `base_url.rstrip("/") if base_url else None`
(so `""` becomes `None` and `"/"` becomes `""`), `session.headers`
updated with the default headers, and `session.auth` set when a default
auth tuple is given (a tuple is always truthy). -/
def ApiClient.init (base_url : Option String) (default_timeout : Int := 30)
    (max_retries : Nat := 3) (default_auth : Option (String × String) := none)
    (default_headers : Headers := []) : ApiClient :=
  { base_url :=
      match base_url with
      | some s => if s ≠ "" then some (String.mk (pyRstripSlash s.data)) else none
      | none => none
    default_timeout := default_timeout
    max_retries := max_retries
    sessionHeaders := dictUpdate [] default_headers
    sessionAuth := default_auth.map (fun p => (some p.1, some p.2)) }

/-- `ApiClient._prepare_url`.  An `Except.error` is the `ValueError` that
`urljoin` (via `urlsplit`) raises on a malformed bracketed netloc; the
real code does not catch it, so it propagates to `send`'s caller. -/
def ApiClient.prepare_url (c : ApiClient) (item_url : URLSpec) : Except String String :=
  let absolute := item_url.to_absolute
  match c.base_url with
  | none => .ok absolute
  | some b =>
      if b ≠ "" ∧ startsWithL absolute.data ['/'] then
        (pyUrljoin (b.data ++ ['/']) (pyLstripSlash absolute.data)).map String.mk
      else if b ≠ "" ∧ ¬ (startsWithL absolute.data "http://".data = true ∨
                          startsWithL absolute.data "https://".data = true) then
        (pyUrljoin (b.data ++ ['/']) (pyLstripSlash absolute.data)).map String.mk
      else .ok absolute

/-- `ApiClient._prepare_body` (it never reads `self`): returns the payload
descriptor and the header overrides.  Total — the `json.loads` failure is
the `none` branch, not an exception. -/
def ApiClient.prepare_body : Option RequestBody → DataKwargs × Headers
  | none => (.empty, [])
  | some b =>
      if b.mode = none ∨ b.mode = some "" then (.empty, [])
      else if b.mode = some "raw" then
        let raw := b.raw.getD ""
        match jsonLoads raw with
        | some j => (.json j, [("Content-Type", "application/json")])
        | none => (.data raw, [("Content-Type", "text/plain")])
      else if b.mode = some "formdata" then
        let acc := (b.formdata.getD []).foldl
          (fun (acc : List (String × Option String) × List (String × String)) part =>
            match part.key with
            | none => acc
            | some k =>
                if k = "" then acc
                else if part.type = some "file" then
                  match part.src with
                  | some src => if src ≠ "" then (acc.1, dictInsert acc.2 k src) else acc
                  | none => acc
                else (dictInsert acc.1 k part.value, acc.2))
          ([], [])
        (.form acc.1 acc.2, [])
      else if b.mode = some "urlencoded" then
        let fields := (b.urlencoded.getD []).foldl
          (fun acc part =>
            match part.key with
            | none => acc
            | some k => if k = "" then acc else dictInsert acc k part.value) []
        (.urlenc fields, [("Content-Type", "application/x-www-form-urlencoded")])
      else (.empty, [])

/-- The header computation inside `ApiClient.send`:
`headers = dict(session.headers); headers.update(req_item.headers or {});
... ; headers.update(body_headers)` — note the body-encoder overrides are
applied after the request-specific headers. -/
def ApiClient.sendHeaders (c : ApiClient) (item : RequestItem) : Headers :=
  dictUpdate (dictUpdate c.sessionHeaders item.headers)
    (ApiClient.prepare_body item.body).2

/-- The auth computation inside `ApiClient.send`: the session auth, unless
the item declares `basic` auth, in which case the tuple of the item's
(possibly `None`) username and password is used. -/
def ApiClient.sendAuth (c : ApiClient) (item : RequestItem) :
    Option (Option String × Option String) :=
  match item.auth with
  | some a =>
      if a.type = some "basic" then some (a.username, a.password) else c.sessionAuth
  | none => c.sessionAuth

/-- Modelled from the spec: the retry loop that `requests`/`urllib3`
executes under the `Retry` policy `ApiClient.__init__` installs
(`total=max_retries`, `status_forcelist=(429,500,502,503,504)`,
`allowed_methods=False`, `raise_on_status=False`).  This loop is library
code, not part of src; the spec states: statuses in the forcelist and
connection errors are retried up to the budget; when the budget is
exhausted on a retryable status the last response is returned as-is, and a
connection failure that exhausts the budget raises (surfacing in `send` as
a `requests.RequestException`).  `attempt n` is the outcome of the `n`-th
transport attempt; the second result component counts attempts made. -/
def retryLoop (attempt : Nat → Outcome) : Nat → Nat → Except String Response × Nat
  | idx, 0 =>
      match attempt idx with
      | .resp r => (.ok r, idx + 1)
      | .connError m => (.error m, idx + 1)
  | idx, n + 1 =>
      match attempt idx with
      | .resp r =>
          if r.status ∈ [429, 500, 502, 503, 504] then retryLoop attempt (idx + 1) n
          else (.ok r, idx + 1)
      | .connError _ => retryLoop attempt (idx + 1) n

/-- `ApiClient.send`: resolve URL, merge headers, encode the body, pick
auth, dispatch through the session (whose retry behaviour is `retryLoop`),
and wrap a transport failure in `ApiError("Request failed: ...")`.  The
transport is abstracted as a function from the wire request and the
attempt index to an outcome; the `Nat` result counts transport attempts. -/
def ApiClient.send (c : ApiClient) (item : RequestItem)
    (transport : WireRequest → Nat → Outcome) : Except ApiError Response × Nat :=
  let pb := ApiClient.prepare_body item.body
  let wr : WireRequest :=
    { method := pyUpper item.method
      url := c.prepare_url item.url
      headers := c.sendHeaders item
      auth := c.sendAuth item
      payload := pb.1 }
  match retryLoop (transport wr) 0 c.max_retries with
  | (.ok r, n) => (.ok r, n)
  | (.error m, n) => (.error ⟨"Request failed: " ++ m, none, none⟩, n)

/-- `PostmanRunner`. -/
structure PostmanRunner where
  client : ApiClient
  collection : PostmanCollection

/-- `PostmanRunner.list_requests`: `list(self.collection.by_name.keys())`. -/
def PostmanRunner.list_requests (r : PostmanRunner) : List String :=
  dictKeys r.collection.by_name

/-- Keys of `PostmanCollection.by_name` without a runner, for stating the
same contract at collection level. -/
def PostmanCollection.list_requests (col : PostmanCollection) : List String :=
  dictKeys col.by_name

/-- `PostmanRunner.run_by_name`: raise (`Except.error`) a named `ApiError`
when the name is absent, otherwise dispatch through `ApiClient.send`.  The
attempt count is `0` on the error path: no transport call happens.  The
source quotes the name inside the message; the surrounding quote marks are
elided here and the message otherwise matches. -/
def PostmanRunner.run_by_name (r : PostmanRunner)
    (transport : WireRequest → Nat → Outcome) (name : String) :
    Except ApiError Response × Nat :=
  match dictGet r.collection.by_name name with
  | none =>
      (.error ⟨"Request named " ++ name ++ " not found in collection.", none, none⟩, 0)
  | some it => r.client.send it transport

theorem dictGet_insert {K V : Type} [DecidableEq K] (d : List (K × V)) (k k' : K) (v : V) :
    dictGet (dictInsert d k v) k' = if k' = k then some v else dictGet d k' := by
  induction d with
  | nil => simp [dictInsert, dictGet]
  | cons hd tl ih =>
      obtain ⟨k0, v0⟩ := hd
      by_cases h0 : k0 = k
      · subst h0
        simp only [dictInsert, if_pos rfl, dictGet]
        by_cases hk : k' = k0
        · simp [hk]
        · simp [hk]
      · simp only [dictInsert, if_neg h0, dictGet]
        by_cases hk : k' = k0
        · subst hk
          have : ¬ k' = k := fun h => h0 (h ▸ rfl)
          simp [this]
        · simp [hk, ih]

/-- First-of-two options, used to state lookup in a merged dict. -/
def orElseO {V : Type} (x y : Option V) : Option V :=
  match x with
  | some v => some v
  | none => y

theorem dictGet_update {K V : Type} [DecidableEq K] (e : List (K × V)) (d : List (K × V)) (k : K) :
    dictGet (dictUpdate d e) k = orElseO (dictGetLast e k) (dictGet d k) := by
  induction e generalizing d with
  | nil => simp [dictUpdate, dictGetLast, orElseO]
  | cons hd tl ih =>
      obtain ⟨k0, v0⟩ := hd
      have step : dictUpdate d ((k0, v0) :: tl) = dictUpdate (dictInsert d k0 v0) tl := rfl
      rw [step, ih]
      simp only [dictGetLast]
      cases htl : dictGetLast tl k with
      | some v => simp [orElseO, Option.orElse]
      | none =>
          simp only [orElseO, Option.orElse, dictGet_insert]
          by_cases hk : k = k0 <;> simp [hk]

theorem dictGet_eq_none_iff {K V : Type} [DecidableEq K] (d : List (K × V)) (k : K) :
    dictGet d k = none ↔ k ∉ dictKeys d := by
  induction d with
  | nil => simp [dictGet, dictKeys]
  | cons hd tl ih =>
      obtain ⟨k0, v0⟩ := hd
      by_cases hk : k = k0
      · subst hk
        simp [dictGet, dictKeys]
      · simp [dictGet, dictKeys, hk, ih]

theorem dictKeys_insert {K V : Type} [DecidableEq K] (d : List (K × V)) (k : K) (v : V) :
    dictKeys (dictInsert d k v) =
      if k ∈ dictKeys d then dictKeys d else dictKeys d ++ [k] := by
  induction d with
  | nil => simp [dictInsert, dictKeys]
  | cons hd tl ih =>
      obtain ⟨k0, v0⟩ := hd
      by_cases h0 : k0 = k
      · subst h0
        simp [dictInsert, dictKeys]
      · simp only [dictInsert, if_neg h0, dictKeys, List.map_cons]
        have hne : ¬ k = k0 := fun h => h0 h.symm
        by_cases hmem : k ∈ dictKeys tl
        · simp only [dictKeys] at ih hmem
          simp [List.mem_cons, hne, hmem, ih]
        · simp only [dictKeys] at ih hmem
          simp [List.mem_cons, hne, hmem, ih]

/-- Names kept by Python dict-key semantics: first occurrence of each name
survives (in position), later duplicates are dropped. -/
def dedupNotIn (seen : List String) : List String → List String
  | [] => []
  | x :: rest =>
      if x ∈ seen then dedupNotIn seen rest
      else x :: dedupNotIn (seen ++ [x]) rest

theorem byName_keys_aux (items : List RequestItem) (d : List (String × RequestItem)) :
    dictKeys (items.foldl (fun d it => dictInsert d it.name it) d) =
      dictKeys d ++ dedupNotIn (dictKeys d) (items.map RequestItem.name) := by
  induction items generalizing d with
  | nil => simp [dedupNotIn]
  | cons it rest ih =>
      simp only [List.foldl_cons, List.map_cons, dedupNotIn]
      by_cases hmem : it.name ∈ dictKeys d
      · rw [ih, dictKeys_insert, if_pos hmem, if_pos hmem]
      · rw [ih, dictKeys_insert, if_neg hmem, if_neg hmem]
        have : dictKeys d ++ [it.name] ++ dedupNotIn (dictKeys d ++ [it.name]) (rest.map RequestItem.name)
            = dictKeys d ++ (it.name :: dedupNotIn (dictKeys d ++ [it.name]) (rest.map RequestItem.name)) := by
          simp
        rw [this]

theorem flatten_items_append (xs ys : List PostmanItem) :
    flatten_items (xs ++ ys) = flatten_items xs ++ flatten_items ys := by
  induction xs with
  | nil => simp [flatten_items]
  | cons it rest ih => simp [flatten_items, ih]

/-- The header merge in the order claim C1 states it (client defaults,
then body-encoder overrides, then request-specific headers) — written from
the spec's words, to compare against the code's `sendHeaders`. -/
def specHeaderMergeC1 (c : ApiClient) (item : RequestItem) : Headers :=
  dictUpdate (dictUpdate c.sessionHeaders (ApiClient.prepare_body item.body).2)
    item.headers

/-- C1 (counterexample): the claim puts request-specific headers above
body-encoder overrides, but `ApiClient.send` applies the body-encoder
overrides last.  With a request-specific `Content-Type: text/html` and a
`urlencoded` body, the dispatched `Content-Type` is the body encoder's
`application/x-www-form-urlencoded`, not the spec-order `text/html`. -/
theorem C1_counterexample :
    ApiClient.sendHeaders { base_url := none }
        { name := "r", method := "POST", url := {},
          headers := [("Content-Type", "text/html")],
          body := some { mode := some "urlencoded",
                         urlencoded := some [{ key := some "a", value := some "b" }] } }
      = [("Content-Type", "application/x-www-form-urlencoded")]
    ∧ specHeaderMergeC1 { base_url := none }
        { name := "r", method := "POST", url := {},
          headers := [("Content-Type", "text/html")],
          body := some { mode := some "urlencoded",
                         urlencoded := some [{ key := some "a", value := some "b" }] } }
      = [("Content-Type", "text/html")]
    ∧ ([("Content-Type", "application/x-www-form-urlencoded")] : Headers)
      ≠ [("Content-Type", "text/html")] :=
  ⟨rfl, rfl, by decide⟩

/-- C1 (amended): `ApiClient.send` builds the final header mapping by
merging, from lowest to highest precedence, the client-wide session
headers, then the request-specific headers, then the body-encoder
overrides; later entries overwrite earlier ones on key collision, so a
body-encoder override wins over a request-specific header. -/
theorem C1_header_precedence (c : ApiClient) (item : RequestItem) (k : String) :
    dictGet (c.sendHeaders item) k =
      orElseO (dictGetLast (ApiClient.prepare_body item.body).2 k)
        (orElseO (dictGetLast item.headers k) (dictGet c.sessionHeaders k)) := by
  unfold ApiClient.sendHeaders
  rw [dictGet_update, dictGet_update]

/-- C2 (counterexample): the claim includes `raw = ""`, but Python's
`if self.raw:` is false for the empty string, so `to_absolute` falls
through to composition and returns `"http:///"`, not `""`. -/
theorem C2_counterexample :
    URLSpec.to_absolute { raw := some "" } = "http:///"
    ∧ ("http:///" : String) ≠ "" :=
  ⟨by decide, by decide⟩

/-- C2 (amended): for every `URLSpec` whose `raw` field is set to a
non-empty string, `to_absolute` returns exactly that string, regardless of
the other fields. -/
theorem C2_raw_precedence (u : URLSpec) (r : String) (h1 : u.raw = some r)
    (h2 : r ≠ "") : u.to_absolute = r := by
  unfold URLSpec.to_absolute
  rw [h1]
  simp [h2]

/-- C2 witness: a raw URL wins over fully-populated structured fields. -/
theorem C2_raw_precedence_witness :
    URLSpec.to_absolute
      { raw := some "x/y", protocol := some "https", host := some ["ignored", "host"],
        port := some "9999", path := some ["other"] } = "x/y" :=
  C2_raw_precedence _ "x/y" rfl (by decide)

/-- C3: for a body in `raw` mode, `_prepare_body` is total (the parse
failure is an ordinary branch): when the raw string parses as JSON the
payload is the JSON value with a `Content-Type: application/json`
override, and on parse failure the raw string itself is sent with
`Content-Type: text/plain`. -/
theorem C3_raw_mode_total (b : RequestBody) (h : b.mode = some "raw") :
    (∃ j, jsonLoads (b.raw.getD "") = some j ∧
        ApiClient.prepare_body (some b)
          = (.json j, [("Content-Type", "application/json")]))
    ∨ (jsonLoads (b.raw.getD "") = none ∧
        ApiClient.prepare_body (some b)
          = (.data (b.raw.getD ""), [("Content-Type", "text/plain")])) := by
  cases hj : jsonLoads (b.raw.getD "") with
  | some j => exact Or.inl ⟨j, rfl, by simp [ApiClient.prepare_body, h, hj]⟩
  | none => exact Or.inr ⟨rfl, by simp [ApiClient.prepare_body, h, hj]⟩

/-- C3 witness: the spec's two examples — `{"a":1}` goes out as JSON,
`not json` goes out as plain text, and neither raises. -/
theorem C3_raw_mode_total_witness :
    ((∃ j, jsonLoads (((some "\x7b\"a\":1\x7d" : Option String)).getD "") = some j ∧
        ApiClient.prepare_body (some { mode := some "raw", raw := some "\x7b\"a\":1\x7d" })
          = (.json j, [("Content-Type", "application/json")]))
     ∨ (jsonLoads (((some "\x7b\"a\":1\x7d" : Option String)).getD "") = none ∧
        ApiClient.prepare_body (some { mode := some "raw", raw := some "\x7b\"a\":1\x7d" })
          = (.data (((some "\x7b\"a\":1\x7d" : Option String)).getD ""),
             [("Content-Type", "text/plain")])))
    ∧ ((∃ j, jsonLoads (((some "not json" : Option String)).getD "") = some j ∧
        ApiClient.prepare_body (some { mode := some "raw", raw := some "not json" })
          = (.json j, [("Content-Type", "application/json")]))
     ∨ (jsonLoads (((some "not json" : Option String)).getD "") = none ∧
        ApiClient.prepare_body (some { mode := some "raw", raw := some "not json" })
          = (.data (((some "not json" : Option String)).getD ""),
             [("Content-Type", "text/plain")]))) :=
  ⟨C3_raw_mode_total { mode := some "raw", raw := some "\x7b\"a\":1\x7d" } rfl,
   C3_raw_mode_total { mode := some "raw", raw := some "not json" } rfl⟩

/-- C4: `PostmanCollection.load` flattens the item tree depth-first and
left-to-right — the output for a concatenation of entry lists is the
concatenation of the outputs, a folder entry contributes exactly its
children's flattened contents, and an entry lacking a `request` key
contributes nothing (and raises nothing: `flatten_items` is total). -/
theorem C4_flatten_order :
    (∀ xs ys : List PostmanItem,
        flatten_items (xs ++ ys) = flatten_items xs ++ flatten_items ys)
    ∧ (∀ (n : Option String) (children : List PostmanItem),
        flatten_items [PostmanItem.mk n ChildTag.isList children none]
          = flatten_items children)
    ∧ (∀ (n : Option String) (tag : ChildTag) (children : List PostmanItem),
        tag ≠ ChildTag.isList →
        flatten_items [PostmanItem.mk n tag children none] = []) := by
  refine ⟨flatten_items_append, ?_, ?_⟩
  · intro n children
    simp [flatten_items, flatten_one]
  · intro n tag children htag
    simp [flatten_items, flatten_one, htag, RequestItem.from_postman_item]

/-- C4 witness: an entry with no `item` list and no `request` key loads to
nothing. -/
theorem C4_flatten_order_witness :
    flatten_items [PostmanItem.mk (some "bare") ChildTag.missing [] none] = [] :=
  C4_flatten_order.2.2 (some "bare") ChildTag.missing [] (by decide)

/-- C9: an entry carrying both an `item` list and a `request` object is
treated as a folder — its children are flattened and its own `request` is
ignored, producing no `RequestItem` for the entry itself. -/
theorem C9_folder_wins (n : Option String) (children : List PostmanItem) (rq : PRequest) :
    flatten_items [PostmanItem.mk n ChildTag.isList children (some rq)]
      = flatten_items children := by
  simp [flatten_items, flatten_one]

/-- C5: `run_by_name` on a name absent from the collection returns the
distinct `ApiError` naming the missing request and makes zero transport
attempts (no network call). -/
theorem C5_not_found (r : PostmanRunner) (transport : WireRequest → Nat → Outcome)
    (name : String) (h : dictGet r.collection.by_name name = none) :
    r.run_by_name transport name =
      (.error ⟨"Request named " ++ name ++ " not found in collection.", none, none⟩, 0) := by
  unfold PostmanRunner.run_by_name
  rw [h]

/-- C5 witness: looking up a name in an empty collection fails with the
named error and zero transport attempts. -/
theorem C5_not_found_witness :
    PostmanRunner.run_by_name
        ⟨{ base_url := none }, PostmanCollection.ofItems []⟩
        (fun _ _ => Outcome.connError "refused") "missing"
      = (.error ⟨"Request named " ++ "missing" ++ " not found in collection.", none, none⟩, 0) :=
  C5_not_found _ _ "missing" rfl

/-- C6 (counterexample): the claim promises one name per loaded
`RequestItem` even for duplicates, but `by_name` is a dict, so two items
named `A` produce a single key and `list_requests` returns one entry, not
two. -/
theorem C6_counterexample :
    (PostmanCollection.ofItems
        [{ name := "A", method := "GET", url := {} },
         { name := "A", method := "POST", url := {} }]).list_requests = ["A"]
    ∧ (PostmanCollection.ofItems
        [{ name := "A", method := "GET", url := {} },
         { name := "A", method := "POST", url := {} }]).items.map RequestItem.name
      = ["A", "A"]
    ∧ (["A"] : List String) ≠ ["A", "A"] :=
  ⟨rfl, rfl, by decide⟩

/-- C6 (amended): `list_requests` returns the request names with
dict-key semantics — each distinct name once, at the position of its
first occurrence in load order (so it equals the full name sequence
exactly when names are unique). -/
theorem C6_list_requests (items : List RequestItem) :
    (PostmanCollection.ofItems items).list_requests
      = dedupNotIn [] (items.map RequestItem.name) := by
  have h := byName_keys_aux items []
  simpa [PostmanCollection.list_requests, PostmanCollection.ofItems, dictKeys] using h

theorem retryLoop_const_resp (rsp : Response) (h : rsp.status ∈ [429, 500, 502, 503, 504]) :
    ∀ (remaining idx : Nat),
      retryLoop (fun _ => Outcome.resp rsp) idx remaining = (.ok rsp, idx + remaining + 1) := by
  intro remaining
  induction remaining with
  | zero => intro idx; simp [retryLoop]
  | succ n ih =>
      intro idx
      simp only [retryLoop, if_pos h, ih (idx + 1)]
      congr 1
      omega

theorem retryLoop_const_err (m : String) :
    ∀ (remaining idx : Nat),
      retryLoop (fun _ => Outcome.connError m) idx remaining = (.error m, idx + remaining + 1) := by
  intro remaining
  induction remaining with
  | zero => intro idx; simp [retryLoop]
  | succ n ih =>
      intro idx
      simp only [retryLoop, ih (idx + 1)]
      congr 1
      omega

/-- C8: the two failure shapes are distinct.  A transport that always
returns status 503 is retried through the whole budget
(`max_retries + 1` attempts) and `send` then returns the last-received
response without raising; a transport that always fails at the connection
level exhausts the same budget and `send` raises (`Except.error`) an
`ApiError` wrapping the underlying cause. -/
theorem C8_failure_shapes (c : ApiClient) (item : RequestItem) (rsp : Response)
    (m : String) (h503 : rsp.status = 503) :
    c.send item (fun _ _ => Outcome.resp rsp) = (.ok rsp, c.max_retries + 1)
    ∧ c.send item (fun _ _ => Outcome.connError m)
        = (.error ⟨"Request failed: " ++ m, none, none⟩, c.max_retries + 1) := by
  constructor
  · show (match retryLoop (fun _ => Outcome.resp rsp) 0 c.max_retries with
      | (.ok r, n) => ((.ok r : Except ApiError Response), n)
      | (.error m, n) => (.error ⟨"Request failed: " ++ m, none, none⟩, n))
      = (.ok rsp, c.max_retries + 1)
    rw [retryLoop_const_resp rsp (by simp [h503]) c.max_retries 0]
    simp
  · show (match retryLoop (fun _ => Outcome.connError m) 0 c.max_retries with
      | (.ok r, n) => ((.ok r : Except ApiError Response), n)
      | (.error m, n) => (.error ⟨"Request failed: " ++ m, none, none⟩, n))
      = (.error ⟨"Request failed: " ++ m, none, none⟩, c.max_retries + 1)
    rw [retryLoop_const_err m c.max_retries 0]
    simp

/-- C8 witness: with the default budget of 3 retries, a constant-503
transport yields the 503 response after 4 attempts, and a
connection-refused transport yields an `ApiError` after 4 attempts. -/
theorem C8_failure_shapes_witness :
    ApiClient.send { base_url := none, max_retries := 3 }
        { name := "r", method := "GET", url := {} }
        (fun _ _ => Outcome.resp ⟨503⟩)
      = (.ok ⟨503⟩, 4)
    ∧ ApiClient.send { base_url := none, max_retries := 3 }
        { name := "r", method := "GET", url := {} }
        (fun _ _ => Outcome.connError "connection refused")
      = (.error ⟨"Request failed: " ++ "connection refused", none, none⟩, 4) :=
  C8_failure_shapes { base_url := none, max_retries := 3 }
    { name := "r", method := "GET", url := {} } ⟨503⟩ "connection refused" rfl

/-- C10: when a `RequestItem` declares auth of type `basic`, `send`
replaces the session auth with the tuple of the item's username and
password even when either is `None` — it does not fall back to the
client-wide default credentials. -/
theorem C10_basic_auth_override (c : ApiClient) (item : RequestItem) (a : AuthSpec)
    (hauth : item.auth = some a) (htype : a.type = some "basic") :
    c.sendAuth item = some (a.username, a.password) := by
  unfold ApiClient.sendAuth
  rw [hauth]
  simp [htype]

/-- C10 witness: a `basic` auth spec with absent credentials overrides a
configured client default with `(None, None)`. -/
theorem C10_basic_auth_override_witness :
    ApiClient.sendAuth
        { base_url := none, sessionAuth := some (some "envUser", some "envPass") }
        { name := "r", method := "GET", url := {}, auth := some { type := some "basic" } }
      = some (none, none) :=
  C10_basic_auth_override _ _ { type := some "basic" } rfl rfl

/-- Spec-side reading of "the item URL is absolute (has a scheme)" in
claim C7: the URL carries a scheme in the sense `urlsplit` detects one.
Written from the spec's words, to be compared with the code's
`startswith(("http://", "https://"))` test. -/
def hasScheme (s : String) : Bool := (schemeSplit s.data).isSome

/-- C7 (counterexample): `"HTTP://x/y"` has a scheme (schemes are
case-insensitive), but the code's absolute-URL test is the case-sensitive
`startswith(("http://", "https://"))`, so the URL is pushed through
`urljoin`, which normalises it to `"http://x/y"` — not returned
unchanged. -/
theorem C7_counterexample :
    hasScheme "HTTP://x/y" = true
    ∧ ApiClient.prepare_url { base_url := some "http://bhost" } { raw := some "HTTP://x/y" }
      = .ok "http://x/y"
    ∧ ("http://x/y" : String) ≠ "HTTP://x/y" :=
  ⟨by decide, by rfl, by decide⟩

theorem takeWhile_all_append (p : Char → Bool) (xs ys : List Char) (d : Char)
    (hall : ∀ c ∈ xs, p c = true) (hd : p d = false) :
    (xs ++ d :: ys).takeWhile p = xs := by
  induction xs with
  | nil => simp [List.takeWhile, hd]
  | cons x t ih =>
      have hx : p x = true := hall x (by simp)
      simp only [List.cons_append, List.takeWhile_cons, hx, if_true]
      rw [ih (fun c hc => hall c (by simp [hc]))]

theorem dropWhile_all_append (p : Char → Bool) (xs ys : List Char) (d : Char)
    (hall : ∀ c ∈ xs, p c = true) (hd : p d = false) :
    (xs ++ d :: ys).dropWhile p = d :: ys := by
  induction xs with
  | nil => simp [List.dropWhile, hd]
  | cons x t ih =>
      have hx : p x = true := hall x (by simp)
      simp only [List.cons_append, List.dropWhile_cons, hx, if_true]
      exact ih (fun c hc => hall c (by simp [hc]))

theorem schemeSplit_prefix (sch rest : List Char) (hne : sch ≠ [])
    (hall : ∀ c ∈ sch, isSchemeChar c = true)
    (halpha : ∀ c, sch.head? = some c → c.isAlpha = true)
    (hlower : sch.map Char.toLower = sch) :
    schemeSplit (sch ++ ':' :: rest) = some (sch, rest) := by
  have hcolon : isSchemeChar ':' = false := by decide
  unfold schemeSplit
  rw [dropWhile_all_append _ _ _ _ hall hcolon, takeWhile_all_append _ _ _ _ hall hcolon]
  cases sch with
  | nil => exact absurd rfl hne
  | cons c cs =>
      have hc : c.isAlpha = true := halpha c rfl
      simp only [hc, if_true]
      rw [show (c :: cs).map Char.toLower = c :: cs from hlower]

theorem mem_of_dropWhile_eq_cons (p : Char → Bool) (l r : List Char) (c : Char)
    (h : l.dropWhile p = c :: r) : c ∈ l := by
  induction l with
  | nil => simp [List.dropWhile] at h
  | cons x t ih =>
      rw [List.dropWhile_cons] at h
      cases hx : p x with
      | true =>
          rw [hx] at h
          simp only [if_pos] at h
          exact List.mem_cons_of_mem _ (ih h)
      | false =>
          rw [hx] at h
          simp only [Bool.false_eq_true, if_false, List.cons.injEq] at h
          rw [← h.1]
          exact List.mem_cons_self x t

theorem schemeSplit_none_of_no_colon (l : List Char) (h : ':' ∉ l) :
    schemeSplit l = none := by
  unfold schemeSplit
  split
  · next r heq => exact absurd (mem_of_dropWhile_eq_cons _ _ _ _ heq) h
  · rfl

theorem splitAtFirst_of_not_mem (c : Char) (l : List Char) (h : c ∉ l) :
    splitAtFirst c l = (l, []) := by
  induction l with
  | nil => rfl
  | cons d t ih =>
      have hd : d ≠ c := fun he => h (he ▸ List.mem_cons_self d t)
      have ht : c ∉ t := fun hm => h (List.mem_cons_of_mem _ hm)
      simp [splitAtFirst, hd, ih ht]

theorem mem_joinSlash (segs : List (List Char)) (x : Char) (h : x ∈ joinSlash segs) :
    x = '/' ∨ ∃ s ∈ segs, x ∈ s := by
  induction segs with
  | nil => simp [joinSlash] at h
  | cons s rest ih =>
      cases rest with
      | nil =>
          simp only [joinSlash] at h
          exact Or.inr ⟨s, by simp, h⟩
      | cons s' rest' =>
          simp only [joinSlash, List.mem_append, List.mem_cons] at h
          rcases h with hs | hx | hj
          · exact Or.inr ⟨s, by simp, hs⟩
          · exact Or.inl hx
          · rcases ih hj with hx | ⟨t, ht, hxt⟩
            · exact Or.inl hx
            · exact Or.inr ⟨t, List.mem_cons_of_mem _ ht, hxt⟩

theorem mem_slashPath (segs : List (List Char)) (x : Char) (h : x ∈ slashPath segs) :
    x = '/' ∨ ∃ s ∈ segs, x ∈ s := by
  induction segs with
  | nil => simp [slashPath] at h
  | cons s rest ih =>
      simp only [slashPath, List.foldr_cons, List.mem_cons, List.mem_append] at h
      rcases h with hx | hs | hj
      · exact Or.inl hx
      · exact Or.inr ⟨s, by simp, hs⟩
      · rcases ih hj with hx | ⟨t, ht, hxt⟩
        · exact Or.inl hx
        · exact Or.inr ⟨t, List.mem_cons_of_mem _ ht, hxt⟩

theorem splitSlash_no_slash (s : List Char) (h : '/' ∉ s) : splitSlash s = [s] := by
  induction s with
  | nil => rfl
  | cons c t ih =>
      have hc : ¬ c = '/' := fun he => h (he ▸ List.mem_cons_self c t)
      have ht : '/' ∉ t := fun hm => h (List.mem_cons_of_mem _ hm)
      simp [splitSlash, hc, ih ht]

theorem splitSlash_append_cons (s t : List Char) (h : '/' ∉ s) :
    splitSlash (s ++ '/' :: t) = s :: splitSlash t := by
  induction s with
  | nil => simp [splitSlash]
  | cons c cs ih =>
      have hc : ¬ c = '/' := fun he => h (he ▸ List.mem_cons_self c cs)
      have hcs : '/' ∉ cs := fun hm => h (List.mem_cons_of_mem _ hm)
      show splitSlash (c :: (cs ++ '/' :: t)) = (c :: cs) :: splitSlash t
      rw [show splitSlash (c :: (cs ++ '/' :: t))
            = match splitSlash (cs ++ '/' :: t) with
              | ss :: sss => (c :: ss) :: sss
              | [] => [[c]] from by simp [splitSlash, hc]]
      rw [ih hcs]

theorem splitSlash_joinSlash (segs : List (List Char)) (hne : segs ≠ [])
    (h : ∀ s ∈ segs, '/' ∉ s) :
    splitSlash (joinSlash segs) = segs := by
  induction segs with
  | nil => exact absurd rfl hne
  | cons s rest ih =>
      cases rest with
      | nil => exact splitSlash_no_slash s (h s (by simp))
      | cons s' rest' =>
          have hs : '/' ∉ s := h s (by simp)
          show splitSlash (s ++ '/' :: joinSlash (s' :: rest')) = s :: (s' :: rest')
          rw [splitSlash_append_cons s _ hs,
            ih (by simp) (fun t ht => h t (List.mem_cons_of_mem _ ht))]

theorem splitSlash_slashPath (segs : List (List Char)) (h : ∀ s ∈ segs, '/' ∉ s) :
    splitSlash (slashPath segs ++ ['/']) = ([] :: segs) ++ [[]] := by
  induction segs with
  | nil => rfl
  | cons s rest ih =>
      have hs : '/' ∉ s := h s (by simp)
      obtain ⟨z, hz⟩ : ∃ z, slashPath rest ++ ['/'] = '/' :: z := by
        cases rest with
        | nil => exact ⟨[], rfl⟩
        | cons r rs => exact ⟨r ++ slashPath rs ++ ['/'], by simp [slashPath]⟩
      have hz2 : splitSlash z = rest ++ [[]] := by
        have h1 : splitSlash (slashPath rest ++ ['/']) = ([] :: rest) ++ [[]] :=
          ih (fun t ht => h t (List.mem_cons_of_mem _ ht))
        rw [hz, show splitSlash ('/' :: z) = [] :: splitSlash z from by simp [splitSlash]]
          at h1
        simpa using h1
      calc splitSlash (slashPath (s :: rest) ++ ['/'])
          = splitSlash ('/' :: (s ++ '/' :: z)) := by
            rw [show slashPath (s :: rest) = '/' :: (s ++ slashPath rest) from rfl]
            simp [hz]
        _ = [] :: splitSlash (s ++ '/' :: z) := by simp [splitSlash]
        _ = [] :: s :: splitSlash z := by rw [splitSlash_append_cons s z hs]
        _ = ([] :: s :: rest) ++ [[]] := by rw [hz2]; simp

theorem resolveSegs_no_dots (l : List (List Char))
    (h : ∀ s ∈ l, s ≠ ['.'] ∧ s ≠ ['.', '.']) : resolveSegs l = l := by
  suffices general : ∀ (m : List (List Char)) (acc : List (List Char)),
      (∀ s ∈ m, s ≠ ['.'] ∧ s ≠ ['.', '.']) →
      m.foldl (fun acc s =>
        if s = ['.', '.'] then acc.dropLast
        else if s = ['.'] then acc
        else acc ++ [s]) acc = acc ++ m by
    simpa [resolveSegs] using general l [] h
  intro m
  induction m with
  | nil => intro acc _; simp
  | cons s rest ih =>
      intro acc hh
      have hsx := hh s (by simp)
      simp only [List.foldl_cons, if_neg hsx.2, if_neg hsx.1]
      rw [ih (acc ++ [s]) (fun t ht => hh t (List.mem_cons_of_mem _ ht))]
      simp

theorem filterMiddleAux_shape (ms : List (List Char)) (last : List Char) :
    filterMiddleAux (ms ++ [last]) = ms.filter (fun s => !s.isEmpty) ++ [last] := by
  induction ms with
  | nil => rfl
  | cons m rest ih =>
      cases hr : rest ++ [last] with
      | nil => exact absurd hr (by simp)
      | cons y ys =>
          show filterMiddleAux (m :: (rest ++ [last])) = _
          rw [hr]
          show (if m = [] then filterMiddleAux (y :: ys) else m :: filterMiddleAux (y :: ys)) = _
          rw [← hr, ih]
          by_cases hm : m = []
          · subst hm
            simp [List.filter]
          · rw [if_neg hm]
            have : (!List.isEmpty m) = true := by
              cases m with
              | nil => exact absurd rfl hm
              | cons a b => rfl
            simp [List.filter, this]

theorem joinSlash_append (xs ys : List (List Char)) (hx : xs ≠ []) (hy : ys ≠ []) :
    joinSlash (xs ++ ys) = joinSlash xs ++ '/' :: joinSlash ys := by
  induction xs with
  | nil => exact absurd rfl hx
  | cons x rest ih =>
      cases rest with
      | nil =>
          cases ys with
          | nil => exact absurd rfl hy
          | cons y ys' => simp [joinSlash]
      | cons x' rest' =>
          have h1 : joinSlash ((x :: x' :: rest') ++ ys)
              = x ++ '/' :: joinSlash ((x' :: rest') ++ ys) := by
            cases ys with
            | nil => exact absurd rfl hy
            | cons y ys' => rfl
          rw [h1, ih (by simp) ]
          simp [joinSlash]

theorem slashPath_eq_cons (segs : List (List Char)) (h : segs ≠ []) :
    slashPath segs = '/' :: joinSlash segs := by
  induction segs with
  | nil => exact absurd rfl h
  | cons s rest ih =>
      cases rest with
      | nil => simp [slashPath, joinSlash]
      | cons s' rest' =>
          show '/' :: (s ++ slashPath (s' :: rest')) = '/' :: joinSlash (s :: s' :: rest')
          rw [ih (by simp)]
          simp [joinSlash]

theorem startsWithL_mem (l p : List Char) (h : startsWithL l p = true) :
    ∀ c ∈ p, c ∈ l := by
  induction p generalizing l with
  | nil => simp
  | cons q qs ih =>
      cases l with
      | nil => simp [startsWithL] at h
      | cons c t =>
          simp only [startsWithL, Bool.and_eq_true, decide_eq_true_eq] at h
          intro d hd
          rcases List.mem_cons.mp hd with hdq | hdqs
          · rw [hdq, ← h.1]; exact List.mem_cons_self c t
          · exact List.mem_cons_of_mem _ (ih t h.2 d hdqs)

theorem startsWithL_head (l p : List Char) (c : Char) (h : startsWithL l (c :: p) = true) :
    ∃ t, l = c :: t := by
  cases l with
  | nil => simp [startsWithL] at h
  | cons d t =>
      simp only [startsWithL, Bool.and_eq_true, decide_eq_true_eq] at h
      exact ⟨t, by rw [h.1]⟩

/-- The separator characters excluded from the authority and path
segments of the C7 join theorem: `/`, the query/fragment markers, the
`;`-params marker, and the IPv6 bracket characters. -/
def forbiddenNetChars : List Char := ['/', '?', '#', ';', '[', ']']

/-- Characters allowed in the authority and path segments of the C7 join
theorem: printable ASCII, non-space, and none of `forbiddenNetChars`.
Controls, tabs, newlines and non-ASCII are excluded because CPython's
`urlsplit` strips or NFKC-checks them (unmodelled pre-passes). -/
abbrev goodNetChar (c : Char) : Prop :=
  32 < c.toNat ∧ c.toNat < 127 ∧ c ∉ forbiddenNetChars

/-- `goodNetChar` and additionally no `:`, so the string cannot look like
it carries a scheme. -/
abbrev goodSegChar (c : Char) : Prop := goodNetChar c ∧ c ≠ ':'

theorem goodNetChar_ne (c x : Char) (hc : goodNetChar c)
    (hx : x ∈ forbiddenNetChars) : c ≠ x :=
  fun he => hc.2.2 (he ▸ hx)

/-- A well-formed path segment for the C7 join theorem: non-empty, not a
dot segment, and made of `goodNetChar`s. -/
abbrev goodBaseSeg (s : List Char) : Prop :=
  s ≠ [] ∧ s ≠ ['.'] ∧ s ≠ ['.', '.'] ∧ ∀ c ∈ s, goodNetChar c

/-- A well-formed relative-URL segment: additionally colon-free. -/
abbrev goodItemSeg (s : List Char) : Prop :=
  s ≠ [] ∧ s ≠ ['.'] ∧ s ≠ ['.', '.'] ∧ ∀ c ∈ s, goodSegChar c

/-- `scheme://netloc/seg1/.../segk` — the shape of a configured base URL
after `__init__`'s `rstrip("/")`. -/
def mkBase (sch n : List Char) (bsegs : List (List Char)) : List Char :=
  sch ++ ':' :: '/' :: '/' :: (n ++ slashPath bsegs)

theorem schemeSplit_http_prefix (sch rest : List Char)
    (hs : sch = "http".data ∨ sch = "https".data) :
    schemeSplit (sch ++ ':' :: rest) = some (sch, rest) := by
  rcases hs with h | h <;> subst h <;>
    exact schemeSplit_prefix _ _ (by decide) (by decide) (by decide) (by decide)

theorem not_mem_slashPath_forbidden (bsegs : List (List Char)) (x : Char)
    (hb : ∀ s ∈ bsegs, goodBaseSeg s) (hxs : x ≠ '/')
    (hxf : x ∈ forbiddenNetChars) : x ∉ slashPath bsegs ++ ['/'] := by
  intro hmem
  rcases List.mem_append.mp hmem with hmem | hmem
  · rcases mem_slashPath _ _ hmem with hsl | ⟨s, hsmem, hxm⟩
    · exact hxs hsl
    · exact goodNetChar_ne x x ((hb s hsmem).2.2.2 x hxm) hxf rfl
  · exact hxs (by simpa using hmem)

theorem pyUrlsplit_mkBase (sch n : List Char) (bsegs : List (List Char))
    (hs : sch = "http".data ∨ sch = "https".data)
    (hn : ∀ c ∈ n, goodNetChar c)
    (hb : ∀ s ∈ bsegs, goodBaseSeg s) :
    pyUrlsplit (mkBase sch n bsegs ++ ['/']) []
      = .ok ⟨sch, n, slashPath bsegs ++ ['/'], [], []⟩ := by
  have hmk : mkBase sch n bsegs ++ ['/']
      = sch ++ ':' :: ('/' :: '/' :: (n ++ (slashPath bsegs ++ ['/']))) := by
    simp [mkBase]
  obtain ⟨z, hz⟩ : ∃ z, slashPath bsegs ++ ['/'] = '/' :: z := by
    cases bsegs with
    | nil => exact ⟨[], rfl⟩
    | cons r rs => exact ⟨r ++ slashPath rs ++ ['/'], by simp [slashPath]⟩
  have hnet : ∀ c ∈ n, (!isNetlocEnd c) = true := by
    intro c hc
    have hg := hn c hc
    have h1 : c ≠ '/' := goodNetChar_ne c '/' hg (by decide)
    have h2 : c ≠ '?' := goodNetChar_ne c '?' hg (by decide)
    have h3 : c ≠ '#' := goodNetChar_ne c '#' hg (by decide)
    simp [isNetlocEnd, h1, h2, h3]
  have hslash : (!isNetlocEnd '/') = false := by decide
  have htw : (n ++ (slashPath bsegs ++ ['/'])).takeWhile (fun c => !isNetlocEnd c) = n := by
    rw [hz]; exact takeWhile_all_append _ _ _ _ hnet hslash
  have hdw : (n ++ (slashPath bsegs ++ ['/'])).dropWhile (fun c => !isNetlocEnd c)
      = slashPath bsegs ++ ['/'] := by
    rw [hz]; exact dropWhile_all_append _ _ _ _ hnet hslash
  have hfrag : splitAtFirst '#' (slashPath bsegs ++ ['/']) = (slashPath bsegs ++ ['/'], []) :=
    splitAtFirst_of_not_mem _ _
      (not_mem_slashPath_forbidden bsegs '#' hb (by decide) (by decide))
  have hquery : splitAtFirst '?' (slashPath bsegs ++ ['/']) = (slashPath bsegs ++ ['/'], []) :=
    splitAtFirst_of_not_mem _ _
      (not_mem_slashPath_forbidden bsegs '?' hb (by decide) (by decide))
  have hbrL : '[' ∉ n := fun hm => goodNetChar_ne '[' '[' (hn '[' hm) (by decide) rfl
  have hbrR : ']' ∉ n := fun hm => goodNetChar_ne ']' ']' (hn ']' hm) (by decide) rfl
  have hbr1 : ¬ (('[' ∈ n ∧ ']' ∉ n) ∨ (']' ∈ n ∧ '[' ∉ n)) := by
    rintro (⟨h, _⟩ | ⟨h, _⟩)
    · exact hbrL h
    · exact hbrR h
  have hbr2 : ¬ ('[' ∈ n ∧ ']' ∈ n ∧
      checkBracketedHost (splitAtFirst ']' (splitAtFirst '[' n).2).1 = false) :=
    fun hc => hbrL hc.1
  rw [hmk]
  simp only [pyUrlsplit, schemeSplit_http_prefix sch _ hs]
  simp only [List.take, List.drop, if_pos, htw, hdw]
  rw [if_neg hbr1, if_neg hbr2]
  simp only [hfrag, hquery]

theorem not_mem_joinSlash (usegs : List (List Char)) (x : Char)
    (hsegs : ∀ s ∈ usegs, goodItemSeg s)
    (hx : (x ≠ '/' ∧ x ∈ forbiddenNetChars) ∨ x = ':') :
    x ∉ joinSlash usegs := by
  intro hmem
  rcases mem_joinSlash usegs x hmem with h | ⟨s, hs, hxs⟩
  · rcases hx with ⟨hne, _⟩ | h'
    · exact hne h
    · subst h'; simp at h
  · have hg := (hsegs s hs).2.2.2 x hxs
    rcases hx with ⟨_, hf⟩ | h'
    · exact goodNetChar_ne x x hg.1 hf rfl
    · exact hg.2 h' 

theorem joinSlash_head (usegs : List (List Char)) (hu : usegs ≠ [])
    (hsegs : ∀ s ∈ usegs, goodItemSeg s) :
    ∃ c0 t0, joinSlash usegs = c0 :: t0 ∧ c0 ≠ '/' := by
  cases usegs with
  | nil => exact absurd rfl hu
  | cons s rest =>
      have hgs := hsegs s (by simp)
      cases s with
      | nil => exact absurd rfl hgs.1
      | cons a as =>
          have ha : a ≠ '/' := goodNetChar_ne a '/' (hgs.2.2.2 a (by simp)).1 (by decide)
          cases rest with
          | nil => exact ⟨a, as, by simp [joinSlash], ha⟩
          | cons s' rest' =>
              exact ⟨a, as ++ '/' :: joinSlash (s' :: rest'), by simp [joinSlash], ha⟩

theorem pyUrlsplit_relative (sch : List Char) (usegs : List (List Char))
    (hu : usegs ≠ []) (hsegs : ∀ s ∈ usegs, goodItemSeg s) :
    pyUrlsplit (joinSlash usegs) sch = .ok ⟨sch, [], joinSlash usegs, [], []⟩ := by
  have hss : schemeSplit (joinSlash usegs) = none :=
    schemeSplit_none_of_no_colon _ (not_mem_joinSlash usegs ':' hsegs (Or.inr rfl))
  obtain ⟨c0, t0, hc0t, hc0⟩ := joinSlash_head usegs hu hsegs
  have htake : ¬ ((joinSlash usegs).take 2 = ['/', '/']) := by
    rw [hc0t]
    cases t0 <;> simp [List.take, hc0]
  have hfrag : splitAtFirst '#' (joinSlash usegs) = (joinSlash usegs, []) :=
    splitAtFirst_of_not_mem _ _
      (not_mem_joinSlash usegs '#' hsegs (Or.inl ⟨by decide, by decide⟩))
  have hquery : splitAtFirst '?' (joinSlash usegs) = (joinSlash usegs, []) :=
    splitAtFirst_of_not_mem _ _
      (not_mem_joinSlash usegs '?' hsegs (Or.inl ⟨by decide, by decide⟩))
  have hb1 : ¬ (('[' ∈ ([] : List Char) ∧ ']' ∉ ([] : List Char)) ∨
      (']' ∈ ([] : List Char) ∧ '[' ∉ ([] : List Char))) := by simp
  have hb2 : ¬ ('[' ∈ ([] : List Char) ∧ ']' ∈ ([] : List Char) ∧
      checkBracketedHost
        (splitAtFirst ']' (splitAtFirst '[' ([] : List Char)).2).1 = false) := by simp
  simp only [pyUrlsplit, hss, if_neg htake, if_neg hb1, if_neg hb2, hfrag, hquery]

theorem pyUrlparse_mkBase (sch n : List Char) (bsegs : List (List Char))
    (hs : sch = "http".data ∨ sch = "https".data)
    (hn : ∀ c ∈ n, goodNetChar c)
    (hb : ∀ s ∈ bsegs, goodBaseSeg s) :
    pyUrlparse (mkBase sch n bsegs ++ ['/']) []
      = .ok ⟨sch, n, slashPath bsegs ++ ['/'], [], [], []⟩ := by
  have hsemi : ';' ∉ slashPath bsegs ++ ['/'] :=
    not_mem_slashPath_forbidden bsegs ';' hb (by decide) (by decide)
  simp only [pyUrlparse, pyUrlsplit_mkBase sch n bsegs hs hn hb]
  rw [if_neg (fun hc => hsemi hc.2)]

theorem pyUrlparse_relative (sch : List Char) (usegs : List (List Char))
    (hu : usegs ≠ []) (hsegs : ∀ s ∈ usegs, goodItemSeg s) :
    pyUrlparse (joinSlash usegs) sch = .ok ⟨sch, [], joinSlash usegs, [], [], []⟩ := by
  have hsemi : ';' ∉ joinSlash usegs :=
    not_mem_joinSlash usegs ';' hsegs (Or.inl ⟨by decide, by decide⟩)
  simp only [pyUrlparse, pyUrlsplit_relative sch usegs hu hsegs]
  rw [if_neg (fun hc => hsemi hc.2)]

theorem pyUrljoin_mkBase (sch n : List Char) (bsegs usegs : List (List Char))
    (hs : sch = "http".data ∨ sch = "https".data)
    (hnne : n ≠ []) (hn : ∀ c ∈ n, goodNetChar c)
    (hb : ∀ s ∈ bsegs, goodBaseSeg s)
    (hu : usegs ≠ []) (hus : ∀ s ∈ usegs, goodItemSeg s) :
    pyUrljoin (mkBase sch n bsegs ++ ['/']) (joinSlash usegs)
      = .ok (mkBase sch n bsegs ++ '/' :: joinSlash usegs) := by
  have hbne : ¬ (mkBase sch n bsegs ++ ['/'] = []) := by simp
  obtain ⟨c0, t0, hc0t, hc0⟩ := joinSlash_head usegs hu hus
  have hune : ¬ (joinSlash usegs = []) := by rw [hc0t]; simp
  have hrel : sch ∈ usesRelative := by rcases hs with h | h <;> subst h <;> decide
  have hnetm : sch ∈ usesNetloc := by rcases hs with h | h <;> subst h <;> decide
  have hbslash : ∀ s ∈ bsegs, '/' ∉ s :=
    fun s hsm hmem => goodNetChar_ne '/' '/' ((hb s hsm).2.2.2 '/' hmem) (by decide) rfl
  have huslash : ∀ s ∈ usegs, '/' ∉ s :=
    fun s hsm hmem => goodNetChar_ne '/' '/' ((hus s hsm).2.2.2 '/' hmem).1 (by decide) rfl
  obtain ⟨uinit, ulast, husegs⟩ : ∃ i l, usegs = i ++ [l] :=
    ⟨usegs.dropLast, usegs.getLast hu, (List.dropLast_append_getLast hu).symm⟩
  have hulastm : ulast ∈ usegs := by rw [husegs]; simp
  have hnonempty_seg : ∀ (s : List Char), s ≠ [] → (!s.isEmpty) = true := by
    intro s hsne
    cases s with
    | nil => exact absurd rfl hsne
    | cons a b => rfl
  have hfilter : (bsegs ++ [[]] ++ uinit).filter (fun s => !s.isEmpty)
      = bsegs ++ uinit := by
    rw [List.filter_append, List.filter_append]
    rw [List.filter_eq_self.mpr (fun s hsm => hnonempty_seg s (hb s hsm).1)]
    rw [show List.filter (fun s => !s.isEmpty) [([] : List Char)] = [] from rfl]
    rw [List.filter_eq_self.mpr
      (fun s hsm => hnonempty_seg s
        (hus s (by rw [husegs]; exact List.mem_append_left _ hsm)).1)]
    simp
  have hsegs_eq : filterMiddle ((([] :: bsegs) ++ [[]]) ++ splitSlash (joinSlash usegs))
      = [] :: (bsegs ++ usegs) := by
    rw [splitSlash_joinSlash usegs hu huslash]
    have hshape : (([] :: bsegs) ++ [[]]) ++ usegs
        = [] :: ((bsegs ++ [[]] ++ uinit) ++ [ulast]) := by
      rw [husegs]; simp
    rw [hshape]
    show [] :: filterMiddleAux ((bsegs ++ [[]] ++ uinit) ++ [ulast]) = _
    rw [filterMiddleAux_shape, hfilter, husegs]
    simp
  have hnodots : ∀ s ∈ [] :: (bsegs ++ usegs), s ≠ ['.'] ∧ s ≠ ['.', '.'] := by
    intro s hsm
    rcases List.mem_cons.mp hsm with h | h
    · subst h; exact ⟨by simp, by simp⟩
    · rcases List.mem_append.mp h with h' | h'
      · exact ⟨(hb s h').2.1, (hb s h').2.2.1⟩
      · exact ⟨(hus s h').2.1, (hus s h').2.2.1⟩
  have hgetlast : ([] :: (bsegs ++ usegs)).getLast? = some ulast := by
    rw [husegs, show [] :: (bsegs ++ (uinit ++ [ulast]))
        = ([] :: (bsegs ++ uinit)) ++ [ulast] from by simp]
    exact List.getLast?_concat _
  have hulast_dots : ulast ≠ ['.'] ∧ ulast ≠ ['.', '.'] :=
    ⟨(hus ulast hulastm).2.1, (hus ulast hulastm).2.2.1⟩
  have hrest_ne : bsegs ++ usegs ≠ [] := by
    rw [husegs]; simp
  have hjoin_cons : joinSlash ([] :: (bsegs ++ usegs)) = '/' :: joinSlash (bsegs ++ usegs) := by
    cases hbu : bsegs ++ usegs with
    | nil => exact absurd hbu hrest_ne
    | cons a b => simp [joinSlash]
  have hpne : '/' :: joinSlash (bsegs ++ usegs) ≠ [] := by simp
  have hpath_eq : '/' :: joinSlash (bsegs ++ usegs) = slashPath bsegs ++ '/' :: joinSlash usegs := by
    cases bsegs with
    | nil => simp [slashPath]
    | cons b bs =>
        rw [joinSlash_append (b :: bs) usegs (by simp) hu,
          slashPath_eq_cons (b :: bs) (by simp)]
        simp
  -- now evaluate pyUrljoin
  rw [pyUrljoin, if_neg hbne, if_neg hune]
  simp only [pyUrlparse_mkBase sch n bsegs hs hn hb, pyUrlparse_relative sch usegs hu hus]
  rw [if_neg (by simp [hrel] : ¬ (sch ≠ sch ∨ sch ∉ usesRelative))]
  rw [if_neg (by simp : ¬ (sch ∈ usesNetloc ∧ ([] : List Char) ≠ []))]
  rw [if_pos hnetm]
  rw [if_neg (fun hc => hune hc.1 : ¬ (joinSlash usegs = [] ∧ True))]
  rw [splitSlash_slashPath bsegs hbslash]
  have hglne : ¬ ((([] : List Char) :: bsegs ++ [[]]).getLast? ≠ some []) :=
    fun hne => hne (List.getLast?_concat _)
  rw [if_neg hglne]
  rw [if_neg (by rw [hc0t]; simp [hc0] : ¬ ((joinSlash usegs).head? = some '/'))]
  rw [hsegs_eq, resolveSegs_no_dots _ hnodots]
  rw [if_neg (by rw [hgetlast]; simp [hulast_dots.1, hulast_dots.2] :
    ¬ (([] :: (bsegs ++ usegs)).getLast? = some ['.'] ∨
       ([] :: (bsegs ++ usegs)).getLast? = some ['.', '.']))]
  rw [hjoin_cons, if_neg hpne]
  rw [show pyUrlunparse ⟨sch, n, '/' :: joinSlash (bsegs ++ usegs), [], [], []⟩
        = pyUrlunsplit ⟨sch, n, '/' :: joinSlash (bsegs ++ usegs), [], []⟩ from by
      rw [pyUrlunparse, if_neg (by simp : ¬ (([] : List Char) ≠ []))]]
  rw [pyUrlunsplit]
  simp only []
  rw [if_pos (Or.inl hnne)]
  rw [if_neg (by simp : ¬ (('/' :: joinSlash (bsegs ++ usegs)) ≠ [] ∧
    ('/' :: joinSlash (bsegs ++ usegs)).head? ≠ some '/'))]
  have hschne : sch ≠ [] := by rcases hs with h | h <;> subst h <;> decide
  rw [if_pos hschne, if_neg (by simp : ¬ (([] : List Char) ≠ [])),
    if_neg (by simp : ¬ (([] : List Char) ≠ []))]
  rw [hpath_eq, mkBase]
  simp

/-- C7 (amended): with a configured base URL, (a) an item URL beginning
with the case-sensitive prefixes `http://` or `https://` is used
unchanged — this, not "has a scheme", is the code's absoluteness test —
and (b) an item URL with no scheme, query, fragment, dot segments or
empty segments is treated as a path and joined onto the base URL with
exactly one `/` separator at the join point: the result is (without any
`ValueError`) the base, one slash, and the item URL stripped of leading
slashes. -/
theorem C7_prepare_url :
    (∀ (c : ApiClient) (u : URLSpec) (r : String),
        u.raw = some r → r ≠ "" →
        (startsWithL r.data "http://".data = true ∨
         startsWithL r.data "https://".data = true) →
        c.prepare_url u = .ok r)
    ∧ (∀ (c : ApiClient) (u : URLSpec) (r : String) (sch n : List Char)
        (bsegs usegs : List (List Char)),
        u.raw = some r → r ≠ "" →
        c.base_url = some (String.mk (mkBase sch n bsegs)) →
        (sch = "http".data ∨ sch = "https".data) →
        n ≠ [] → (∀ ch ∈ n, goodNetChar ch) →
        (∀ s ∈ bsegs, goodBaseSeg s) →
        usegs ≠ [] → (∀ s ∈ usegs, goodItemSeg s) →
        pyLstripSlash r.data = joinSlash usegs →
        c.prepare_url u = .ok (String.mk (mkBase sch n bsegs ++ '/' :: joinSlash usegs))) := by
  constructor
  · intro c u r hraw hrne habs
    have hta : u.to_absolute = r := by
      unfold URLSpec.to_absolute
      rw [hraw]
      simp [hrne]
    cases hbu : c.base_url with
    | none => simp [ApiClient.prepare_url, hta, hbu]
    | some b =>
        have hnotslash : ¬ (startsWithL r.data ['/'] = true) := by
          rcases habs with h | h <;>
          · obtain ⟨t, ht⟩ := startsWithL_head _ _ 'h' h
            rw [ht]
            simp [startsWithL]
        simp only [ApiClient.prepare_url, hta, hbu]
        rw [if_neg (fun hc => hnotslash hc.2), if_neg (fun hc => hc.2 habs)]
  · intro c u r sch n bsegs usegs hraw hrne hbase hs hnne hn hb hu hus hstrip
    have hta : u.to_absolute = r := by
      unfold URLSpec.to_absolute
      rw [hraw]
      simp [hrne]
    have hjoin := pyUrljoin_mkBase sch n bsegs usegs hs hnne hn hb hu hus
    have hbne : String.mk (mkBase sch n bsegs) ≠ "" := by
      intro h
      have h2 : (String.mk (mkBase sch n bsegs)).data = "".data := by rw [h]
      rcases hs with h3 | h3 <;> subst h3 <;> simp [mkBase] at h2
    simp only [ApiClient.prepare_url, hta, hbase]
    by_cases hsw : startsWithL r.data ['/'] = true
    · rw [if_pos ⟨hbne, hsw⟩]
      show Except.map String.mk
          (pyUrljoin (mkBase sch n bsegs ++ ['/']) (pyLstripSlash r.data)) = _
      rw [hstrip, hjoin]
      rfl
    · have hr_eq : r.data = joinSlash usegs := by
        rw [← hstrip]
        unfold pyLstripSlash
        cases hrd : r.data with
        | nil => simp
        | cons a t =>
            have ha : ¬ (a = '/') := by
              intro he
              apply hsw
              rw [hrd, he]
              simp [startsWithL]
            simp [List.dropWhile, ha]
      have hnostart : ¬ (startsWithL r.data "http://".data = true ∨
          startsWithL r.data "https://".data = true) := by
        intro hsom
        have hnc : ':' ∉ joinSlash usegs :=
          not_mem_joinSlash usegs ':' hus (Or.inr rfl)
        apply hnc
        rw [← hr_eq]
        rcases hsom with h | h
        · exact startsWithL_mem _ _ h ':' (by decide)
        · exact startsWithL_mem _ _ h ':' (by decide)
      rw [if_neg (fun hc => hsw hc.2), if_pos ⟨hbne, hnostart⟩]
      show Except.map String.mk
          (pyUrljoin (mkBase sch n bsegs ++ ['/']) (pyLstripSlash r.data)) = _
      rw [hstrip, hjoin]
      rfl

/-- C7 witness: an `https://` item URL passes through a client configured
with a base URL, and `/api/login` joins onto base `http://h/app` with
exactly one separator. -/
theorem C7_prepare_url_witness :
    ApiClient.prepare_url { base_url := some "http://h" } { raw := some "https://other/x" }
      = .ok "https://other/x"
    ∧ ApiClient.prepare_url { base_url := some "http://h/app" } { raw := some "/api/login" }
      = .ok (String.mk (mkBase "http".data "h".data [['a', 'p', 'p']]
          ++ '/' :: joinSlash [['a', 'p', 'i'], ['l', 'o', 'g', 'i', 'n']])) :=
  ⟨C7_prepare_url.1 _ _ "https://other/x" rfl (by decide) (Or.inr (by decide)),
   C7_prepare_url.2 _ _ "/api/login" "http".data "h".data
     [['a', 'p', 'p']] [['a', 'p', 'i'], ['l', 'o', 'g', 'i', 'n']]
     rfl (by decide) rfl (Or.inl rfl) (by decide) (by decide) (by decide)
     (by decide) (by decide) (by decide)⟩
